import Mathlib

set_option maxRecDepth 100000

deriving instance DecidableEq for Except

/-!
Verification development for the `modeling_metrics` pipeline
(`src/metrics/dockqcal.py`, `src/metrics/correlation.py`,
`src/metrics/metrics.py`).

The Python source is shallowly embedded: pure data manipulation becomes
Lean functions over lists, fallible code returns `Except`, and the two
external collaborators (the DockQ subprocess and the scipy statistic
functions) are passed in as function parameters, exactly as the
specification treats them (black boxes behind an IPC / library boundary).

Numeric table cells are modelled in fixed point, as integer multiples of
10⁻⁶ (one unit = 0.000001).  Every decimal value appearing in the source,
the spec and the claims is exactly representable, and all pipeline
arithmetic (rounding to three decimals, comparisons) stays inside this
grid, so every operation evaluates by kernel reduction.
-/

/-- Model of Python `round(x, 3)` on a fixed-point value (`x` counts units
of 10⁻⁶; the result is again in units of 10⁻⁶ and is a multiple of 1000,
i.e. has exactly three decimal digits).  Python 3's `round` rounds half to
even (banker's rounding); on the concrete decimal values examined in the
theorems below this also agrees with the binary floating-point behaviour
of CPython (for instance the double closest to 0.8005 is strictly below
the midpoint, so both give 0.800 at three decimals).  Used by
`dockqcal.py` lines 216-223 and `correlation.py` lines 60-61, 72-73. -/
def pyRound3 (x : ℤ) : ℤ :=
  let q := Int.fdiv x 1000
  let r := Int.fmod x 1000
  let n := if r < 500 then q
           else if 500 < r then q + 1
           else if q % 2 = 0 then q else q + 1
  1000 * n

/-- Python-style string split on a single separator character
(`str.split(sep)`), written by structural recursion on the character list
so that it evaluates by kernel reduction.  `"".split(sep) = [""]` and a
trailing separator yields a trailing empty piece, as in Python. -/
def splitCharAux (sep : Char) : List Char → List Char → List (List Char)
  | [], acc => [acc.reverse]
  | c :: cs, acc =>
    if c == sep then acc.reverse :: splitCharAux sep cs []
    else splitCharAux sep cs (c :: acc)

/-- String form of `splitCharAux`: model of Python `s.split(sep)`. -/
def pySplit (s : String) (sep : Char) : List String :=
  (splitCharAux sep s.data []).map (fun l => ⟨l⟩)

/-- Lexicographic strict order on character lists by code point, the
comparison Python uses on strings; written to evaluate by kernel
reduction. -/
def lexLt : List Char → List Char → Bool
  | [], [] => false
  | [], _ :: _ => true
  | _ :: _, [] => false
  | a :: as, b :: bs =>
    if a.toNat < b.toNat then true
    else if b.toNat < a.toNat then false
    else lexLt as bs

/-- Strict `<` on strings by code points (Python string comparison). -/
def strLtB (a b : String) : Bool := lexLt a.data b.data

/-! ## dockqcal.py: `define_path` (lines 17-81) -/

/-- One row of the model metadata csv: `id`, `rank` and the chain-mapping
column (the confidence-feature columns play no role in `define_path` and
are omitted here; they reappear in the correlation frame). -/
structure ModelMetaRow where
  id : String
  rank : Int
  chains : String
deriving DecidableEq, Repr

/-- One row of the native metadata csv: `id`, the `pdb_id` version
discriminator and the chain-mapping column. -/
structure NativeMetaRow where
  id : String
  pdb_id : String
  chains : String
deriving DecidableEq, Repr

/-- Match of `Path(native_dir).glob(f"{id}*.pdb")` against one file name:
the name starts with `id` and ends in `.pdb`. -/
def globMatch (ident fname : String) : Bool :=
  ident.data.isPrefixOf fname.data && ".pdb".data.isSuffixOf fname.data

/-- Version identifier extracted from a native file name
(`native_file.stem.split('_')[-1]`, line 58-59). -/
def fileVersion (fname : String) : String :=
  (pySplit (fname.dropRight 4) '_').getLastD ""

/-- Structure-file format detection (lines 28-36): `pdb` if any `.pdb`
file is present in the model directory, else `cif`, else a
`FileNotFoundError`. -/
def detectFormat (modelFiles : List String) (modelDir : String) : Except String String :=
  if modelFiles.any (fun f => ".pdb".data.isSuffixOf f.data) then .ok "pdb"
  else if modelFiles.any (fun f => ".cif".data.isSuffixOf f.data) then .ok "cif"
  else .error ("No PDB or CIF files found in " ++ modelDir)

/-- A row of the path table before the merge with the native metadata
(lines 43-71). -/
structure PreRow where
  id : String
  rank : Int
  chains_model : String
  model_path : String
  native_path : String
  json_path : String
  native_pdb : String
deriving DecidableEq, Repr

/-- Build one pre-merge row for a (model record, native file) pairing
(lines 55-71). -/
def mkPreRow (modelDir nativeDir fmt : String) (m : ModelMetaRow) (fname : String) : PreRow :=
  let version := fileVersion fname
  { id := m.id
    rank := m.rank
    chains_model := m.chains
    model_path := modelDir ++ "/" ++ m.id ++ "_" ++ toString m.rank ++ "." ++ fmt
    native_path := nativeDir ++ "/" ++ fname
    json_path := modelDir ++ "/tmp/" ++ m.id ++ "_" ++ toString m.rank ++ "_" ++ version ++ ".json"
    native_pdb := version }

/-- Expansion of one model record into its (model, native-file) pairings
(lines 43-71): all native files matching `{id}*.pdb`, a
`FileNotFoundError` when there are none (lines 51-52). -/
def expandModel (modelDir nativeDir fmt : String) (nativeFiles : List String)
    (m : ModelMetaRow) : Except String (List PreRow) :=
  let matched := nativeFiles.filter (fun f => globMatch m.id f)
  if matched.isEmpty then
    .error ("No native PDB files found for " ++ m.id ++ " in " ++ nativeDir)
  else .ok (matched.map (mkPreRow modelDir nativeDir fmt m))

/-- The `for id, rank in zip(ids, ranks)` loop of lines 43-71. -/
def expandAll (modelDir nativeDir fmt : String) (nativeFiles : List String) :
    List ModelMetaRow → Except String (List PreRow)
  | [] => .ok []
  | m :: ms =>
    match expandModel modelDir nativeDir fmt nativeFiles m with
    | .error e => .error e
    | .ok rs =>
      match expandAll modelDir nativeDir fmt nativeFiles ms with
      | .error e => .error e
      | .ok rest => .ok (rs ++ rest)

/-- A row of the table returned by `define_path`: the pre-merge columns
plus the native-metadata columns brought in by the left merge of line 77
(`pdb_id` itself is dropped again on line 79; `chains_native` is `none`
when the merge found no matching native row, pandas' NaN). -/
structure PathRow where
  id : String
  rank : Int
  chains_model : String
  model_path : String
  native_path : String
  json_path : String
  native_pdb : String
  chains_native : Option String
deriving DecidableEq, Repr

/-- Left merge of one pre-merge row with the native metadata on
`(id, native_pdb) = (id, pdb_id)` (line 77): one output row per matching
native row, or a single row with absent native columns when nothing
matches. -/
def mergeNative (nativeRows : List NativeMetaRow) (r : PreRow) : List PathRow :=
  let matched := nativeRows.filter (fun n => n.id == r.id && n.pdb_id == r.native_pdb)
  if matched.isEmpty then
    [{ id := r.id, rank := r.rank, chains_model := r.chains_model,
       model_path := r.model_path, native_path := r.native_path,
       json_path := r.json_path, native_pdb := r.native_pdb,
       chains_native := none }]
  else
    matched.map (fun n =>
      { id := r.id, rank := r.rank, chains_model := r.chains_model,
        model_path := r.model_path, native_path := r.native_path,
        json_path := r.json_path, native_pdb := r.native_pdb,
        chains_native := some n.chains })

/-- Sort key of line 78: ascending on `id`, then `native_pdb`, then
`rank`. -/
def pathKeyLe (a b : PathRow) : Bool :=
  if a.id == b.id then
    if a.native_pdb == b.native_pdb then decide (a.rank ≤ b.rank)
    else strLtB a.native_pdb b.native_pdb
  else strLtB a.id b.id

/-- `define_path` (lines 17-81).  The two metadata csv files are passed
as parsed row lists, and the directory listings (`glob` results) as file
name lists.  Line 23 first restricts the model table to ids occurring in
the native table (`isin`); then format detection, the per-record
expansion, the left merge with the native metadata and the final sort. -/
def define_path (modelDir nativeDir : String) (modelRows : List ModelMetaRow)
    (nativeRows : List NativeMetaRow) (modelFiles nativeFiles : List String) :
    Except String (List PathRow) :=
  let dfModel := modelRows.filter (fun m => nativeRows.any (fun n => n.id == m.id))
  match detectFormat modelFiles modelDir with
  | .error e => .error e
  | .ok fmt =>
    match expandAll modelDir nativeDir fmt nativeFiles dfModel with
    | .error e => .error e
    | .ok pre =>
      .ok (List.insertionSort (fun a b => pathKeyLe a b = true)
        ((pre.map (mergeNative nativeRows)).flatten))

/-! ## dockqcal.py: scoring batch (`run_dockq`, `parse_json`, `main`,
lines 83-245) -/

/-- The command line handed to the external DockQ process (lines
109-117). -/
structure DockqCall where
  model_pdb : String
  native_pdb : String
  mapping : String
  json_output : String
deriving DecidableEq, Repr

/-- Per-chain-group decomposed metrics inside the DockQ JSON report
(`best_result[chain]`), each field optional. -/
structure ChainScores where
  iRMSD : Option Int
  LRMSD : Option Int
  fnat : Option Int
deriving DecidableEq, Repr

/-- The DockQ JSON report: optional global score plus the per-chain-group
`best_result` mapping. -/
structure DockqReport where
  GlobalDockQ : Option Int
  best_result : List (String × ChainScores)
deriving DecidableEq, Repr

/-- Observable behaviour of one external DockQ invocation: its exit code
and the JSON file it wrote (`none` models a missing or unparsable
file). -/
structure DockqOutcome where
  exitCode : Nat
  written : Option DockqReport
deriving DecidableEq, Repr

/-- Errors escaping the scoring loop. -/
inductive BatchErr where
  | calledProcessError (exitCode : Nat)
  | jsonError (path : String)
deriving DecidableEq, Repr

/-- `run_dockq` (lines 83-124): `subprocess.run(cmd, check=True, ...)`.
`check=True` raises `CalledProcessError` on any non-zero exit status. -/
def run_dockq (dockqProc : DockqCall → DockqOutcome) (c : DockqCall) :
    Except BatchErr Unit :=
  if (dockqProc c).exitCode ≠ 0 then
    .error (.calledProcessError (dockqProc c).exitCode)
  else .ok ()

/-- `parse_json` (lines 131-135): read the JSON report written by the
scorer; a missing or malformed file raises. -/
def parse_json (dockqProc : DockqCall → DockqOutcome) (c : DockqCall) :
    Except BatchErr DockqReport :=
  match (dockqProc c).written with
  | some rep => .ok rep
  | none => .error (.jsonError c.json_output)

/-- The four score columns appended per row (lines 225-230). -/
structure ScoreRow where
  dockq : Option Int
  irmsd : Option Int
  lrsd : Option Int
  fnat : Option Int
deriving DecidableEq, Repr

/-- Field extraction and rounding from a parsed report (lines 204-230):
`GlobalDockQ`, then the `best_result` entry for the native chain group
(an absent entry, like Python's empty-dict default, leaves every
sub-metric absent); each present value is rounded to 3 decimals right
before being put into the result row, never earlier. -/
def reportedScores (metrics : DockqReport) (native_chain : String) : ScoreRow :=
  let other_scores := metrics.best_result.lookup native_chain
  let sub := match other_scores with
    | some os => (os.iRMSD, os.LRMSD, os.fnat)
    | none => (none, none, none)
  { dockq := metrics.GlobalDockQ.map pyRound3
    irmsd := sub.1.map pyRound3
    lrsd := sub.2.1.map pyRound3
    fnat := sub.2.2.map pyRound3 }

/-- One iteration of the scoring loop (lines 189-231): build the chain
mapping `"{model_chain}:{native_chain}"` (pandas NaN prints as `nan`),
invoke the scorer with `check=True`, parse its JSON file, extract and
round the scores.  Any failure escapes as an exception. -/
def processRow (dockqProc : DockqCall → DockqOutcome) (row : PathRow) :
    Except BatchErr ScoreRow := do
  let native_chain := match row.chains_native with
    | some c => c
    | none => "nan"
  let call : DockqCall :=
    { model_pdb := row.model_path, native_pdb := row.native_path,
      mapping := row.chains_model ++ ":" ++ native_chain,
      json_output := row.json_path }
  let _ ← run_dockq dockqProc call
  let report ← parse_json dockqProc call
  .ok (reportedScores report native_chain)

/-- The `for index, row in df.iterrows()` loop (lines 189-231): rows are
processed in order, each appending its result; the first exception aborts
the loop and escapes. -/
def batchLoop (dockqProc : DockqCall → DockqOutcome) :
    List PathRow → Except BatchErr (List ScoreRow)
  | [] => .ok []
  | row :: rest => do
    let s ← processRow dockqProc row
    let rest' ← batchLoop dockqProc rest
    .ok (s :: rest')

/-- One row of the persisted enriched table: the metadata and linkage
columns with the score columns appended; the path bookkeeping columns
(`model_path`, `native_path`, `json_path`) are dropped (line 243). -/
structure EnrichedRow where
  id : String
  rank : Int
  chains_model : String
  native_pdb : String
  chains_native : Option String
  scores : ScoreRow
deriving DecidableEq, Repr

/-- Attach one score row to its originating path row, dropping the path
bookkeeping columns (lines 236-243). -/
def enrich (row : PathRow) (s : ScoreRow) : EnrichedRow :=
  { id := row.id, rank := row.rank, chains_model := row.chains_model,
    native_pdb := row.native_pdb, chains_native := row.chains_native,
    scores := s }

/-- Outcome of the batch section of `dockqcal.main` (lines 183-245):
whether the scratch directory was removed, the enriched csv written (if
any), and the exception re-raised to the caller (if any). -/
structure BatchResult where
  tmpRemoved : Bool
  outputCsv : Option (List EnrichedRow)
  raised : Option BatchErr
deriving DecidableEq, Repr

/-- The batch section of `dockqcal.main` (lines 183-245): the scoring
loop runs inside `try:`, whose `finally:` removes the scratch directory
on both exit paths; the enriched table is assembled and written only
after a fully successful loop, and an exception leaves no output file and
is re-raised. -/
def main_batch (dockqProc : DockqCall → DockqOutcome) (df : List PathRow) :
    BatchResult :=
  match batchLoop dockqProc df with
  | .error e => { tmpRemoved := true, outputCsv := none, raised := some e }
  | .ok results =>
    { tmpRemoved := true, outputCsv := some (List.zipWith enrich df results),
      raised := none }

/-! ## correlation.py -/

/-- One row of the enriched data frame fed to the correlation engine: the
`id`, `rank` and `dockq` columns it dereferences structurally, plus the
feature columns as an association list.  (The pipeline's frames always
carry `id`, `rank` and `dockq`, so the target-column guard of
`compute_correlations` line 24 never fires and is modelled as
statically satisfied.) -/
structure DataRow where
  id : String
  rank : Int
  dockq : Int
  feats : List (String × Int)
deriving DecidableEq, Repr

/-- A data frame: the set of feature columns it carries plus its rows. -/
structure DFrame where
  featCols : List String
  rows : List DataRow
deriving DecidableEq, Repr

/-- The values of feature column `f` (`df[feat].astype(float).values`,
line 32). -/
def colVals (df : DFrame) (f : String) : List Int :=
  df.rows.map (fun r => (r.feats.lookup f).getD 0)

/-- The values of the target column (`df["dockq"]`, line 28). -/
def yVals (df : DFrame) : List Int := df.rows.map (·.dockq)

/-- `len(np.unique(x))` (line 35): number of distinct values. -/
def uniqueCount (xs : List Int) : Nat := xs.eraseDups.length

/-- One row of the correlation report (`method` is filled in later by
`correlation`, line 128; `none` in `r`/`p_value` is pandas' NaN, the
spec's "undefined" marker). -/
structure CorrRow where
  method : String
  feature : String
  metric : String
  r : Option Int
  p_value : Option Int
deriving DecidableEq, Repr

/-- The `print` diagnostics of correlation.py, as structured log
entries. -/
inductive LogMsg where
  | constantFeature (feat : String)
  | statError (feat : String) (metric : String)
  | tooFewRows (method : String) (n : Nat)
  | missingFeatures (method : String) (missing : List String)
  | computing (method : String) (n : Nat)
  | methodError (method : String)
  | noResults
deriving DecidableEq, Repr

/-- A report row with both values marked undefined (lines 39-51). -/
def nanRow (feat metric : String) : CorrRow :=
  { method := "", feature := feat, metric := metric, r := none, p_value := none }

/-- A report row holding a computed statistic, rounded to 3 decimals at
this point of reporting (lines 57-62, 69-74). -/
def statRow (feat metric : String) (rp : Int × Int) : CorrRow :=
  { method := "", feature := feat, metric := metric,
    r := some (pyRound3 rp.1), p_value := some (pyRound3 rp.2) }

/-- An external statistic function (scipy's `pearsonr` / `spearmanr`):
from the feature and target samples to a (coefficient, p-value) pair;
`Except.error` models a raised exception. -/
abbrev StatFn := List Int → List Int → Except Unit (Int × Int)

/-- The body of the per-feature loop of `compute_correlations` (lines
31-76): the constant-value check first (one undefined row per supported
requested statistic, plus a warning), otherwise one computed row per
supported requested statistic, with a statistic that raises logged and
skipped. -/
def featRows (pearsonFn spearmanFn : StatFn) (df : DFrame)
    (metrics : List String) (feat : String) : List CorrRow × List LogMsg :=
  if uniqueCount (colVals df feat) ≤ 1 then
    ((if metrics.contains "pearson" then [nanRow feat "pearson"] else []) ++
     (if metrics.contains "spearman" then [nanRow feat "spearman"] else []),
     [.constantFeature feat])
  else
    ((if metrics.contains "pearson" then
        match pearsonFn (colVals df feat) (yVals df) with
        | .ok rp => [statRow feat "pearson" rp]
        | .error _ => []
      else []) ++
     (if metrics.contains "spearman" then
        match spearmanFn (colVals df feat) (yVals df) with
        | .ok rp => [statRow feat "spearman" rp]
        | .error _ => []
      else []),
     (if metrics.contains "pearson" then
        match pearsonFn (colVals df feat) (yVals df) with
        | .ok _ => []
        | .error _ => [.statError feat "pearson"]
      else []) ++
     (if metrics.contains "spearman" then
        match spearmanFn (colVals df feat) (yVals df) with
        | .ok _ => []
        | .error _ => [.statError feat "spearman"]
      else []))

/-- The rows the feature loop accumulates over a feature list (the value
`corrLoop` returns when every column is present). -/
def corrRowsOf (pf sf : StatFn) (df : DFrame) (metrics features : List String) :
    List CorrRow :=
  (features.map (fun f => (featRows pf sf df metrics f).1)).flatten

/-- The warnings the feature loop accumulates over a feature list. -/
def corrLogsOf (pf sf : StatFn) (df : DFrame) (metrics features : List String) :
    List LogMsg :=
  (features.map (fun f => (featRows pf sf df metrics f).2)).flatten

/-- One feature of the loop, with the KeyError pandas raises when the
frame lacks the column (`df[feat]`, line 32). -/
def computeForFeat (pf sf : StatFn) (df : DFrame) (metrics : List String)
    (feat : String) : Except String (List CorrRow × List LogMsg) :=
  if df.featCols.contains feat then .ok (featRows pf sf df metrics feat)
  else .error ("KeyError: " ++ feat)

/-- The feature loop of `compute_correlations` (lines 30-76),
accumulating rows and warnings in order. -/
def corrLoop (pf sf : StatFn) (df : DFrame) (metrics : List String) :
    List String → Except String (List CorrRow × List LogMsg)
  | [] => .ok ([], [])
  | f :: fs =>
    match computeForFeat pf sf df metrics f with
    | .error e => .error e
    | .ok rl =>
      match corrLoop pf sf df metrics fs with
      | .error e => .error e
      | .ok rest => .ok (rl.1 ++ rest.1, rl.2 ++ rest.2)

/-- Order on the coefficient column used by the report sort: descending,
with absent (NaN) values last, as pandas `sort_values` places them. -/
def rDescLe : Option Int → Option Int → Bool
  | none, none => true
  | none, some _ => false
  | some _, none => true
  | some a, some b => decide (b ≤ a)

/-- The `sort_values(["feature", "metric", "r"],
ascending=[True, True, False])` key of lines 78-80. -/
def keyLe (a b : CorrRow) : Bool :=
  if a.feature == b.feature then
    if a.metric == b.metric then rDescLe a.r b.r
    else strLtB a.metric b.metric
  else strLtB a.feature b.feature

/-- The report sort of lines 78-80 (a stable sort by the key; pandas
ties, which require a duplicated requested feature, are not exercised by
the claims). -/
def sortValues (rows : List CorrRow) : List CorrRow :=
  List.insertionSort (fun a b => keyLe a b = true) rows

/-- `compute_correlations` (lines 15-80).  The frame structurally carries
the target column (see `DataRow`); sorting an empty collected row list
raises, as `pd.DataFrame([]).sort_values(["feature", ...])` does. -/
def compute_correlations (pf sf : StatFn) (df : DFrame)
    (metrics features : List String) :
    Except String (List CorrRow × List LogMsg) :=
  match corrLoop pf sf df metrics features with
  | .error e => .error e
  | .ok rl =>
    if rl.1.isEmpty then .error "KeyError: feature"
    else .ok (sortValues rl.1, rl.2)

/-- First row attaining the maximum `dockq` in a group
(`groupby("id")["dockq"].idxmax()`, line 97): a later row replaces the
incumbent only when strictly greater. -/
def firstMaxRow : List DataRow → Option DataRow
  | [] => none
  | r :: rs =>
    match firstMaxRow rs with
    | none => some r
    | some best => if decide (r.dockq < best.dockq) then some best else some r

/-- The `best_dockq` subset (lines 96-98): for each target id, the first
row maximizing `dockq`.  (pandas sorts the group keys; the group order is
not observable in the re-sorted report, so first-occurrence order is used
here.) -/
def bestDockqRows (df : DFrame) : List DataRow :=
  ((df.rows.map (·.id)).eraseDups).filterMap
    (fun i => firstMaxRow (df.rows.filter (fun r => r.id == i)))

/-- Method-subset selection (lines 91-100): `"all"`, `"rank1"` (literal
`rank == 1`), `"best_dockq"`; any other name is unrecognized
(`none`). -/
def methodSubset (df : DFrame) (name : String) : Option DFrame :=
  if name == "all" then some df
  else if name == "rank1" then
    some { featCols := df.featCols, rows := df.rows.filter (fun r => r.rank == 1) }
  else if name == "best_dockq" then
    some { featCols := df.featCols, rows := bestDockqRows df }
  else none

/-- One iteration of the method loop of `correlation` (lines 91-133):
unknown names are skipped silently; subsets with at most two rows, or
with missing feature columns, are skipped with a logged warning; an
exception from `compute_correlations` is logged and skipped; otherwise
the computed rows are tagged with the method name (line 128). -/
def corrMethod (pf sf : StatFn) (df : DFrame) (metrics features : List String)
    (name : String) : List CorrRow × List LogMsg :=
  match methodSubset df name with
  | none => ([], [])
  | some mdf =>
    if mdf.rows.length ≤ 2 then ([], [.tooFewRows name mdf.rows.length])
    else
      let missing := features.filter (fun f => !(mdf.featCols.contains f))
      if !missing.isEmpty then ([], [.missingFeatures name missing])
      else
        match compute_correlations pf sf mdf metrics features with
        | .error _ => ([], [.computing name mdf.rows.length, .methodError name])
        | .ok rl =>
          (rl.1.map (fun r => { r with method := name }),
           .computing name mdf.rows.length :: rl.2)

/-- The method loop of `correlation` (lines 89-133): blocks are
concatenated in the configured method order (the final column reorder of
lines 137-139 permutes columns, not rows). -/
def corrAll (pf sf : StatFn) (df : DFrame) (metrics features : List String) :
    List String → List CorrRow × List LogMsg
  | [] => ([], [])
  | m :: ms =>
    let block := corrMethod pf sf df metrics features m
    let rest := corrAll pf sf df metrics features ms
    (block.1 ++ rest.1, block.2 ++ rest.2)

/-- `correlation` (lines 82-142): run every configured method, and when
no method produced rows return the empty report with a logged notice
(lines 136-142). -/
def correlation (pf sf : StatFn) (df : DFrame)
    (methods metrics features : List String) : List CorrRow × List LogMsg :=
  let all := corrAll pf sf df metrics features methods
  if all.1.isEmpty then (all.1, all.2 ++ [.noResults]) else all

/-- Whether a log entry names the given method. -/
def mentionsMethod : LogMsg → String → Bool
  | .tooFewRows m _, name => m == name
  | .missingFeatures m _, name => m == name
  | .computing m _, name => m == name
  | .methodError m, name => m == name
  | _, _ => false

/-! ## metrics.py: the combined CLI -/

/-- The default of the `--methods` argument of the combined CLI
(`metrics.py` line 55). -/
def metricsDefaultMethodsArg : String := "all,rank001,best_dockq"

/-- The comma-splitting applied to the `--methods` argument
(`correlation.py` line 203; `.strip()` is the identity on these
pieces). -/
def splitCommas (s : String) : List String := pySplit s ','

/-- The method list a default combined-CLI correlation run hands to the
engine. -/
def metricsDefaultMethods : List String := splitCommas metricsDefaultMethodsArg

/-- Best (minimum) rank present for a target id in a frame.  This and
`specTopRankRows` follow the spec's words for the "top-rank" subset
("rows where `rank` equals the best rank per target"), to be compared
with the source's `methodSubset _ "rank1"`. -/
def bestRankFor (df : DFrame) (i : String) : Option Int :=
  ((df.rows.filter (fun r => r.id == i)).map (·.rank)).min?

/-- The subset the spec describes for "top-rank": rows whose rank equals
the best (minimum) rank present for their target. -/
def specTopRankRows (df : DFrame) : List DataRow :=
  df.rows.filter (fun r => bestRankFor df r.id == some r.rank)

/-! ## Concrete example inputs used by counterexamples and witnesses -/

/-- First triple of the two-triple example batch. -/
def rowB1 : PathRow :=
  ⟨"T1", 1, "A", "m/T1_1.pdb", "n/T1_X.pdb", "m/tmp/T1_1_X.json", "X", some "B"⟩

/-- Second triple of the two-triple example batch. -/
def rowB2 : PathRow :=
  ⟨"T2", 1, "A", "m/T2_1.pdb", "n/T2_X.pdb", "m/tmp/T2_1_X.json", "X", some "B"⟩

/-- A well-formed external report (scores in fixed point: 0.7, 1.5, 2.0,
0.5). -/
def okReport : DockqReport :=
  ⟨some 700000, [("B", ⟨some 1500000, some 2000000, some 500000⟩)]⟩

/-- An external scorer that exits with status 1 on the first example
triple and succeeds on every other call. -/
def failingProc : DockqCall → DockqOutcome := fun c =>
  if c.model_pdb == "m/T1_1.pdb" then ⟨1, none⟩ else ⟨0, some okReport⟩

/-- Model metadata with an id (`T2`) that has no native-table match. -/
def mRowsC2 : List ModelMetaRow := [⟨"T1", 1, "A"⟩, ⟨"T2", 1, "A"⟩]

/-- Native metadata covering only `T1`. -/
def nRowsC2 : List NativeMetaRow := [⟨"T1", "X", "B"⟩]

/-- Model metadata where one id (`A`) is a prefix of another (`AB`). -/
def mRowsC4 : List ModelMetaRow := [⟨"A", 1, "A"⟩, ⟨"AB", 1, "A"⟩]

/-- Native metadata with one record per target `A` and `AB`. -/
def nRowsC4 : List NativeMetaRow := [⟨"A", "X", "B"⟩, ⟨"AB", "X", "B"⟩]

/-- Native structure file name under the repository's directory layout
convention `{id}_{pdb_id}.pdb` (e.g. `DAMGO-mu_opioid_6DDE.pdb`). -/
def natFileName (n : NativeMetaRow) : String := n.id ++ "_" ++ n.pdb_id ++ ".pdb"

/-- A one-model benchmark whose target `A` has two native versions. -/
def mRowsW4 : List ModelMetaRow := [⟨"A", 1, "A"⟩]

/-- Two native records (versions `X` and `Y`) for target `A`. -/
def nRowsW4 : List NativeMetaRow := [⟨"A", "X", "B"⟩, ⟨"A", "Y", "B"⟩]

/-- A frame whose only target `T` has best rank 2 (no rank-1 row). -/
def df6C : DFrame :=
  ⟨["ptm"], [⟨"T", 2, 100000, [("ptm", 500000)]⟩, ⟨"T", 3, 200000, [("ptm", 600000)]⟩]⟩

/-- Position of a method name in the configured method list (first
occurrence; names not in the list sort last). -/
def methodPos : List String → String → Nat
  | [], _ => 0
  | m :: ms, name => if m == name then 0 else methodPos ms name + 1

/-- The deterministic report order the spec describes: grouped by method
subset in the configured order, then within a group by the
`(feature asc, metric asc, coefficient desc)` key of `keyLe`. -/
def reportLe (methods : List String) (a b : CorrRow) : Prop :=
  methodPos methods a.method < methodPos methods b.method ∨
  (a.method = b.method ∧ keyLe a b = true)

/-- A statistic function that always succeeds (coefficient 0.5, p-value
0.01 in fixed point). -/
def pfOk : StatFn := fun _ _ => .ok (500000, 10000)

/-- A second always-succeeding statistic function (coefficient -0.3,
p-value 0.02). -/
def sfOk : StatFn := fun _ _ => .ok (-300000, 20000)

/-- A three-row frame: `ptm` takes three distinct values, `plddt` is
constant; two rows have rank 1. -/
def dfW : DFrame :=
  ⟨["ptm", "plddt"],
   [⟨"T1", 1, 800000, [("ptm", 900000), ("plddt", 700000)]⟩,
    ⟨"T1", 2, 600000, [("ptm", 850000), ("plddt", 700000)]⟩,
    ⟨"T2", 1, 300000, [("ptm", 500000), ("plddt", 700000)]⟩]⟩

/-- The report row a default-configured run over `dfW` produces for the
`"all"` subset, feature `ptm`, Pearson statistic. -/
def corrRow0 : CorrRow := ⟨"all", "ptm", "pearson", some 500000, some 10000⟩

/-! ## C3 -/

/-- C3 counterexample: the claim asserts standard rounding at the .0005
boundary, reporting a raw quality score of 0.8005 as 0.801.  The code's
3-decimal rounding (`pyRound3`, fixed point in units of 10⁻⁶) sends
0.8005 to 0.800, not 0.801: Python `round` rounds half to even (and on
binary doubles 0.8005 is in fact slightly below the midpoint). -/
theorem c3_counterexample : pyRound3 800500 ≠ 801000 := by decide

/-- C3 (amended): reported values are rounded to exactly 3 decimal
digits at the point of reporting (`reportedScores` for the scorer path,
`statRow` for the correlation path, both applying `pyRound3` to the raw
value when building the reported row), deterministically; 0.123456
reports as 0.123, but the .0005 boundary follows round-half-to-even, so
0.8005 reports as 0.800. -/
theorem c3_rounding_three_decimals_at_reporting :
    pyRound3 123456 = 123000 ∧
    pyRound3 800500 = 800000 ∧
    (∀ x : ℤ, ∃ z : ℤ, pyRound3 x = 1000 * z) ∧
    (∀ rep chain, (reportedScores rep chain).dockq = rep.GlobalDockQ.map pyRound3) ∧
    (∀ f m rp, (statRow f m rp).r = some (pyRound3 rp.1) ∧
      (statRow f m rp).p_value = some (pyRound3 rp.2)) :=
  ⟨by decide, by decide, fun _ => ⟨_, rfl⟩, fun _ _ => rfl, fun _ _ _ => ⟨rfl, rfl⟩⟩

/-! ## C1 -/

/-- C1: evaluation of the batch at the failing input.  On a two-triple
batch whose external scorer exits non-zero on the first triple,
`dockqcal.main`'s loop (which invokes the scorer with
`subprocess.run(..., check=True)` and has no per-triple exception
handling) aborts the whole batch: the exception is re-raised, no enriched
table is written — the claim instead requires a two-row table with an
absent-score marker on the failed triple. -/
theorem c1_nonzero_exit_aborts_batch :
    main_batch failingProc [rowB1, rowB2] =
      { tmpRemoved := true, outputCsv := none,
        raised := some (.calledProcessError 1) } := by decide

/-! ## C2 -/

/-- C2: evaluation of path resolution at the failing input.  With model
ids `T1, T2` and a native table containing only `T1`, `define_path`
returns successfully with rows for `T1` only: the `isin` filter of line
23 silently drops the unmatched `T2` rows, and no error naming `T2` is
raised — the claim instead requires a fatal `MissingNativeError` naming
`T2`. -/
theorem c2_unmatched_id_silently_dropped :
    define_path "m" "n" mRowsC2 nRowsC2 ["T1_1.pdb"] ["T1_X.pdb"] =
      .ok [⟨"T1", 1, "A", "m/T1_1.pdb", "n/T1_X.pdb", "m/tmp/T1_1_X.json", "X",
            some "B"⟩] := by decide

/-! ## C8 -/

/-- C8: the batch section of `dockqcal.main` removes the scratch
directory on every exit path (the `finally:` of lines 232-234), and a
fatal error mid-batch discards all partial results and is re-raised with
no enriched output file written (the table assembly and `to_csv` of lines
236-244 run only after a fully successful loop). -/
theorem c8_scratch_cleanup_and_no_partial_output :
    ∀ (proc : DockqCall → DockqOutcome) (df : List PathRow),
      (main_batch proc df).tmpRemoved = true ∧
      ((main_batch proc df).outputCsv.isSome ↔ (main_batch proc df).raised = none) ∧
      (∀ e, batchLoop proc df = .error e →
        (main_batch proc df).raised = some e ∧
        (main_batch proc df).outputCsv = none) := by
  intro proc df
  cases h : batchLoop proc df with
  | error e => simp [main_batch, h]
  | ok res => simp [main_batch, h]

/-- Witness for C8 at a concrete failing batch. -/
theorem c8_witness :
    (main_batch failingProc [rowB1, rowB2]).tmpRemoved = true ∧
    (main_batch failingProc [rowB1, rowB2]).outputCsv = none := by
  obtain ⟨h1, -, h3⟩ := c8_scratch_cleanup_and_no_partial_output failingProc [rowB1, rowB2]
  exact ⟨h1, (h3 (BatchErr.calledProcessError 1) (by decide)).2⟩

/-! ## C6 -/

/-- C6 counterexample: on a frame whose only target `T` has rows of ranks
2 and 3, the claim's selection (best rank per target, `specTopRankRows`)
keeps the rank-2 row, but the code's "rank1" subset (`df["rank"] == 1`,
line 95) is empty — target `T` has rows yet contributes none. -/
theorem c6_counterexample :
    methodSubset df6C "rank1" = some ⟨["ptm"], []⟩ ∧
    specTopRankRows df6C = [⟨"T", 2, 100000, [("ptm", 500000)]⟩] := by decide

/-- C6 (amended): the "top-rank" method subset selects exactly the rows
whose `rank` equals the literal constant 1; a target whose best present
rank is not 1 contributes no rows to the subset. -/
theorem c6_rank1_is_literal_rank_one (df : DFrame) :
    ∃ mdf, methodSubset df "rank1" = some mdf ∧
      mdf.featCols = df.featCols ∧
      ∀ row, row ∈ mdf.rows ↔ row ∈ df.rows ∧ row.rank = 1 := by
  refine ⟨_, rfl, rfl, fun row => ?_⟩
  simp [List.mem_filter]

/-- Witness for C6 at a concrete frame. -/
theorem c6_witness :
    ∃ mdf, methodSubset df6C "rank1" = some mdf ∧
      mdf.featCols = df6C.featCols ∧
      ∀ row, row ∈ mdf.rows ↔ row ∈ df6C.rows ∧ row.rank = 1 :=
  c6_rank1_is_literal_rank_one df6C

/-! ## C4 counterexample -/

/-- C4 counterexample: model ids `A` and `AB`, each with exactly one
matching native record (so the per-id pair count is 2), but the native
file of `AB` also matches the glob `A*.pdb`, so `define_path` emits 3
triples, one of which pairs model `A` with target `AB`'s native file —
cross-target leakage. -/
theorem c4_counterexample :
    define_path "m" "n" mRowsC4 nRowsC4 ["A_1.pdb"] ["A_X.pdb", "AB_X.pdb"] =
      .ok [⟨"A", 1, "A", "m/A_1.pdb", "n/A_X.pdb", "m/tmp/A_1_X.json", "X", some "B"⟩,
           ⟨"A", 1, "A", "m/A_1.pdb", "n/AB_X.pdb", "m/tmp/A_1_X.json", "X", some "B"⟩,
           ⟨"AB", 1, "A", "m/AB_1.pdb", "n/AB_X.pdb", "m/tmp/AB_1_X.json", "X", some "B"⟩] ∧
    (mRowsC4.map (fun m => nRowsC4.countP (fun n => n.id == m.id))).sum = 2 := by decide

/-! ## C4 amended: helper lemmas -/

/-- A native file named by the layout convention is matched by the glob
of its own target id. -/
theorem globMatch_natFileName (i : String) (n : NativeMetaRow) (h : n.id = i) :
    globMatch i (natFileName n) = true := by
  subst h
  have h1 : n.id.data.isPrefixOf (natFileName n).data = true := by
    rw [ List.isPrefixOf_iff_prefix]
    unfold natFileName
    simp only [String.data_append, List.append_assoc]
    exact List.prefix_append _ _
  have h2 : ".pdb".data.isSuffixOf (natFileName n).data = true := by
    rw [List.isSuffixOf_iff_suffix]
    unfold natFileName
    simp only [String.data_append]
    exact List.suffix_append _ _
  unfold globMatch
  rw [h1, h2]
  rfl

/-- Summing a function that is 1 on every member counts the members. -/
theorem sum_map_ones {α : Type} (f : α → ℕ) :
    ∀ l : List α, (∀ x ∈ l, f x = 1) → (l.map f).sum = l.length
  | [], _ => rfl
  | x :: xs, h => by
    have hx := h x (by simp)
    have ih := sum_map_ones f xs (fun y hy => h y (by simp [hy]))
    simp [hx, ih, Nat.add_comm]

/-- In a native-metadata list with pairwise-distinct `(id, pdb_id)` keys,
filtering for the key of a member finds exactly that member. -/
theorem length_filter_nativeKey_eq_one :
    ∀ nrs : List NativeMetaRow, (nrs.map (fun x => (x.id, x.pdb_id))).Nodup →
      ∀ n ∈ nrs,
        (nrs.filter (fun y => y.id == n.id && y.pdb_id == n.pdb_id)).length = 1 := by
  intro nrs
  induction nrs with
  | nil => intro _ n hn; cases hn
  | cons a as ih =>
    intro hnd n hn
    rw [List.map_cons, List.nodup_cons] at hnd
    rcases List.mem_cons.mp hn with rfl | hn'
    · rw [List.filter_cons_of_pos (by simp)]
      have hnil : as.filter (fun y => y.id == n.id && y.pdb_id == n.pdb_id) = [] := by
        rw [List.filter_eq_nil_iff]
        intro y hy hk
        rw [Bool.and_eq_true, beq_iff_eq, beq_iff_eq] at hk
        refine hnd.1 ?_
        have hkey : (y.id, y.pdb_id) = (n.id, n.pdb_id) := by rw [hk.1, hk.2]
        exact hkey ▸ List.mem_map_of_mem _ hy
      simp [hnil]
    · have hka : (a.id == n.id && a.pdb_id == n.pdb_id) = false := by
        rcases hb : (a.id == n.id && a.pdb_id == n.pdb_id) with _ | _
        · rfl
        · exfalso
          rw [Bool.and_eq_true, beq_iff_eq, beq_iff_eq] at hb
          refine hnd.1 ?_
          have hkey : (a.id, a.pdb_id) = (n.id, n.pdb_id) := by rw [hb.1, hb.2]
          exact hkey ▸ List.mem_map_of_mem _ hn'
      rw [List.filter_cons_of_neg (by simp [hka])]
      exact ih hnd.2 n hn'

/-- With pairwise-distinct native `(id, pdb_id)` keys, the left merge of
a pre-merge row whose key matches a native record produces exactly one
row. -/
theorem mergeNative_length_one (nrs : List NativeMetaRow)
    (hkeys : (nrs.map (fun n => (n.id, n.pdb_id))).Nodup)
    (r : PreRow) (n : NativeMetaRow) (hn : n ∈ nrs)
    (hid : r.id = n.id) (hpdb : r.native_pdb = n.pdb_id) :
    (mergeNative nrs r).length = 1 := by
  have hlen := length_filter_nativeKey_eq_one nrs hkeys n hn
  have hpred : (fun n' : NativeMetaRow => n'.id == r.id && n'.pdb_id == r.native_pdb) =
      (fun n' : NativeMetaRow => n'.id == n.id && n'.pdb_id == n.pdb_id) := by
    rw [hid, hpdb]
  simp only [mergeNative]
  rw [hpred]
  have hne : ¬((nrs.filter
      (fun n' : NativeMetaRow => n'.id == n.id && n'.pdb_id == n.pdb_id)).isEmpty = true) := by
    intro hemp
    rw [List.isEmpty_iff] at hemp
    rw [hemp] at hlen
    simp at hlen
  rw [if_neg hne]
  simp [hlen]

/-- Every row the left merge produces carries the id and native path of
its pre-merge row. -/
theorem mergeNative_fields (nrs : List NativeMetaRow) (r : PreRow) :
    ∀ row ∈ mergeNative nrs r, row.id = r.id ∧ row.native_path = r.native_path := by
  intro row h
  simp only [mergeNative] at h
  split at h
  · rcases List.mem_singleton.mp h with rfl
    exact ⟨rfl, rfl⟩
  · obtain ⟨n, -, rfl⟩ := List.mem_map.mp h
    exact ⟨rfl, rfl⟩

/-- When every model record has at least one glob-matched native file,
the expansion loop succeeds and returns all pairings in order. -/
theorem expandAll_ok (d nd fm : String) (nfs : List String) :
    ∀ ms : List ModelMetaRow,
      (∀ m ∈ ms, (nfs.filter (fun f => globMatch m.id f)).isEmpty = false) →
      expandAll d nd fm nfs ms =
        .ok ((ms.map (fun m =>
          (nfs.filter (fun f => globMatch m.id f)).map (mkPreRow d nd fm m))).flatten) := by
  intro ms
  induction ms with
  | nil => intro _; rfl
  | cons m ms ih =>
    intro h
    have hm := h m (by simp)
    have ihh := ih (fun m' hm' => h m' (by simp [hm']))
    simp only [expandAll, expandModel]
    rw [if_neg (by simp [hm]), ihh]
    simp

/-- C4 (amended): path resolution pairs models with native *files* by the
filename glob `{id}*.pdb`.  Under the directory layout convention (one
native file `{id}_{pdb_id}.pdb` per native record), when every model id
has at least one matching native record, the native keys are distinct,
the version extracted from each file name is its record's `pdb_id`, and
no model id glob-matches another target's native file (the no-prefix
condition the counterexample violates), resolution emits exactly one
triple per (ModelRecord × matching NativeRecord) pair — no more, no fewer
— and every triple's native file belongs to a record of the triple's own
target id. -/
theorem c4_resolution_pairing
    (modelDir nativeDir : String)
    (modelRows : List ModelMetaRow) (nativeRows : List NativeMetaRow)
    (modelFiles : List String)
    (hFmt : ∃ fm, detectFormat modelFiles modelDir = .ok fm)
    (hMatched : ∀ m ∈ modelRows, ∃ n, n ∈ nativeRows ∧ n.id = m.id)
    (hNoCross : ∀ m ∈ modelRows, ∀ n ∈ nativeRows,
      globMatch m.id (natFileName n) = true → n.id = m.id)
    (hKeys : (nativeRows.map (fun n => (n.id, n.pdb_id))).Nodup)
    (hVer : ∀ n ∈ nativeRows, fileVersion (natFileName n) = n.pdb_id) :
    ∃ out, define_path modelDir nativeDir modelRows nativeRows modelFiles
        (nativeRows.map natFileName) = .ok out ∧
      out.length = (modelRows.map (fun m =>
        nativeRows.countP (fun n => n.id == m.id))).sum ∧
      ∀ row ∈ out, ∃ n, n ∈ nativeRows ∧ n.id = row.id ∧
        row.native_path = nativeDir ++ "/" ++ natFileName n := by
  obtain ⟨fm, hfm⟩ := hFmt
  have hfilter : modelRows.filter (fun m => nativeRows.any (fun n => n.id == m.id)) = modelRows := by
    rw [List.filter_eq_self]
    intro m hm
    obtain ⟨n, hn, hid⟩ := hMatched m hm
    exact List.any_eq_true.mpr ⟨n, hn, by simp [hid]⟩
  have hmatch : ∀ m ∈ modelRows,
      ((nativeRows.map natFileName).filter (fun f => globMatch m.id f)) =
        (nativeRows.filter (fun n => n.id == m.id)).map natFileName := by
    intro m hm
    rw [List.filter_map]
    congr 1
    apply List.filter_congr
    intro n hn
    simp only [Function.comp_apply]
    by_cases hg : globMatch m.id (natFileName n) = true
    · have hidm := hNoCross m hm n hn hg
      simp [hg, hidm]
    · have hne : n.id ≠ m.id := fun he => hg (globMatch_natFileName m.id n he)
      rw [Bool.not_eq_true] at hg
      simp [hg, hne]
  have hnonempty : ∀ m ∈ modelRows,
      (((nativeRows.map natFileName).filter (fun f => globMatch m.id f)).isEmpty = false) := by
    intro m hm
    rw [hmatch m hm]
    obtain ⟨n, hn, hid⟩ := hMatched m hm
    have hmem : natFileName n ∈ (nativeRows.filter (fun x => x.id == m.id)).map natFileName :=
      List.mem_map_of_mem _ (List.mem_filter.mpr ⟨hn, by simp [hid]⟩)
    cases hfe : (nativeRows.filter (fun x => x.id == m.id)).map natFileName with
    | nil => rw [hfe] at hmem; cases hmem
    | cons _ _ => rfl
  have hexp := expandAll_ok modelDir nativeDir fm (nativeRows.map natFileName) modelRows hnonempty
  have heq : define_path modelDir nativeDir modelRows nativeRows modelFiles
      (nativeRows.map natFileName) =
      .ok (List.insertionSort (fun a b => pathKeyLe a b = true)
        (((((modelRows.map (fun m =>
          ((nativeRows.map natFileName).filter (fun f => globMatch m.id f)).map
            (mkPreRow modelDir nativeDir fm m))).flatten)).map
              (mergeNative nativeRows)).flatten)) := by
    simp only [define_path, hfilter, hfm, hexp]
  refine ⟨_, heq, ?_, ?_⟩
  · -- length: sorting preserves length; each merged block has length 1
    rw [List.length_insertionSort, List.length_flatten, List.map_map]
    have hone : ∀ r ∈ (modelRows.map (fun m =>
        ((nativeRows.map natFileName).filter (fun f => globMatch m.id f)).map
          (mkPreRow modelDir nativeDir fm m))).flatten,
        (List.length ∘ mergeNative nativeRows) r = 1 := by
      intro r hr
      obtain ⟨l, hl, hrl⟩ := List.mem_flatten.mp hr
      obtain ⟨m, hm, rfl⟩ := List.mem_map.mp hl
      rw [hmatch m hm] at hrl
      obtain ⟨f, hf, rfl⟩ := List.mem_map.mp hrl
      obtain ⟨n, hn', rfl⟩ := List.mem_map.mp hf
      have hn := List.mem_filter.mp hn'
      have hid : n.id = m.id := by simpa using hn.2
      exact mergeNative_length_one nativeRows hKeys _ n hn.1
        (by simp [mkPreRow, hid]) (by simp [mkPreRow, hVer n hn.1])
    rw [sum_map_ones _ _ hone, List.length_flatten, List.map_map]
    congr 1
    apply List.map_congr_left
    intro m hm
    simp only [Function.comp_apply, List.length_map, hmatch m hm]
    rw [List.countP_eq_length_filter]
  · -- per-row pairing: each emitted row's native file belongs to a
    -- record of the row's own id
    intro row hrow
    rw [List.mem_insertionSort] at hrow
    obtain ⟨l, hl, hrl⟩ := List.mem_flatten.mp hrow
    obtain ⟨r, hr, rfl⟩ := List.mem_map.mp hl
    obtain ⟨l', hl', hrl'⟩ := List.mem_flatten.mp hr
    obtain ⟨m, hm, rfl⟩ := List.mem_map.mp hl'
    rw [hmatch m hm] at hrl'
    obtain ⟨f, hf, rfl⟩ := List.mem_map.mp hrl'
    obtain ⟨n, hn', rfl⟩ := List.mem_map.mp hf
    have hn := List.mem_filter.mp hn'
    have hid : n.id = m.id := by simpa using hn.2
    obtain ⟨hrid, hrpath⟩ := mergeNative_fields nativeRows _ row hrl
    refine ⟨n, hn.1, ?_, ?_⟩
    · rw [hrid]; simp [mkPreRow, hid]
    · rw [hrpath]; simp [mkPreRow]

/-- Witness for C4 at a concrete benchmark: one model for target `A`,
two native versions `X` and `Y`, so exactly two triples are emitted. -/
theorem c4_witness :
    ∃ out, define_path "m" "n" mRowsW4 nRowsW4 ["A_1.pdb"]
        (nRowsW4.map natFileName) = .ok out ∧
      out.length = (mRowsW4.map (fun m =>
        nRowsW4.countP (fun n => n.id == m.id))).sum ∧
      ∀ row ∈ out, ∃ n, n ∈ nRowsW4 ∧ n.id = row.id ∧
        row.native_path = "n" ++ "/" ++ natFileName n :=
  c4_resolution_pairing "m" "n" mRowsW4 nRowsW4 ["A_1.pdb"]
    ⟨"pdb", by decide⟩
    (by decide) (by decide) (by decide) (by decide)

/-! ## Order facts about the report sort key -/

/-- Characters with equal code points are equal. -/
theorem char_eq_of_toNat_eq {a b : Char} (h : a.toNat = b.toNat) : a = b := by
  apply Char.eq_of_val_eq
  apply UInt32.eq_of_val_eq
  exact Fin.ext h

/-- Nothing is lexicographically below the empty character list. -/
theorem lexLt_nil_right : ∀ l : List Char, lexLt l [] = false
  | [] => rfl
  | _ :: _ => rfl

/-- The lexicographic order is irreflexive. -/
theorem lexLt_irrefl : ∀ l : List Char, lexLt l l = false
  | [] => rfl
  | a :: as => by
    have ih := lexLt_irrefl as
    simp [lexLt, ih]

/-- The lexicographic order is transitive. -/
theorem lexLt_trans : ∀ l1 l2 l3 : List Char,
    lexLt l1 l2 = true → lexLt l2 l3 = true → lexLt l1 l3 = true := by
  intro l1
  induction l1 with
  | nil =>
    intro l2 l3 h1 h2
    cases l3 with
    | nil =>
      cases l2 with
      | nil => exact h1
      | cons b bs => rw [lexLt_nil_right] at h2; exact h2
    | cons c cs => rfl
  | cons a as ih =>
    intro l2 l3 h1 h2
    cases l2 with
    | nil => rw [lexLt_nil_right] at h1; exact absurd h1 (by simp)
    | cons b bs =>
      cases l3 with
      | nil => rw [lexLt_nil_right] at h2; exact absurd h2 (by simp)
      | cons c cs =>
        rw [lexLt] at h1 h2 ⊢
        by_cases hab : a.toNat < b.toNat
        · by_cases hbc : b.toNat < c.toNat
          · simp [Nat.lt_trans hab hbc]
          · by_cases hcb : c.toNat < b.toNat
            · simp [hbc, hcb] at h2
            · have hac : a.toNat < c.toNat := by omega
              simp [hac]
        · by_cases hba : b.toNat < a.toNat
          · simp [hab, hba] at h1
          · simp [hab, hba] at h1
            by_cases hbc : b.toNat < c.toNat
            · have hac : a.toNat < c.toNat := by omega
              simp [hac]
            · by_cases hcb : c.toNat < b.toNat
              · simp [hbc, hcb] at h2
              · simp [hbc, hcb] at h2
                have hac1 : ¬ a.toNat < c.toNat := by omega
                have hac2 : ¬ c.toNat < a.toNat := by omega
                simp [hac1, hac2]
                exact ih bs cs h1 h2

/-- Two character lists are comparable: equal or one below the other. -/
theorem lexLt_trichotomy : ∀ l1 l2 : List Char,
    l1 = l2 ∨ lexLt l1 l2 = true ∨ lexLt l2 l1 = true := by
  intro l1
  induction l1 with
  | nil =>
    intro l2
    cases l2 with
    | nil => exact Or.inl rfl
    | cons b bs => exact Or.inr (Or.inl rfl)
  | cons a as ih =>
    intro l2
    cases l2 with
    | nil => exact Or.inr (Or.inr rfl)
    | cons b bs =>
      by_cases hab : a.toNat < b.toNat
      · exact Or.inr (Or.inl (by rw [lexLt]; simp [hab]))
      · by_cases hba : b.toNat < a.toNat
        · exact Or.inr (Or.inr (by rw [lexLt]; simp [hba]))
        · have heq : a = b := char_eq_of_toNat_eq (by omega)
          rcases ih bs with h | h | h
          · exact Or.inl (by rw [heq, h])
          · exact Or.inr (Or.inl (by rw [lexLt]; simp [hab, hba, h]))
          · exact Or.inr (Or.inr (by rw [lexLt]; simp [heq, Nat.lt_irrefl, h]))

/-- String comparability, in the form needed for the sort key: two
distinct strings compare strictly in one direction. -/
theorem strLtB_or_of_ne {a b : String} (h : a ≠ b) :
    strLtB a b = true ∨ strLtB b a = true := by
  rcases lexLt_trichotomy a.data b.data with he | hl | hl
  · exact absurd (String.ext he) h
  · exact Or.inl hl
  · exact Or.inr hl

/-- String comparison is transitive. -/
theorem strLtB_trans {a b c : String} (h1 : strLtB a b = true) (h2 : strLtB b c = true) :
    strLtB a c = true :=
  lexLt_trans a.data b.data c.data h1 h2

/-- String comparison is irreflexive. -/
theorem strLtB_irrefl (a : String) : strLtB a a = false := lexLt_irrefl a.data

/-- A strictly smaller string is a different string. -/
theorem ne_of_strLtB {a b : String} (h : strLtB a b = true) : a ≠ b := by
  intro he
  rw [he, strLtB_irrefl] at h
  exact absurd h (by simp)

/-- `rDescLe` is total. -/
theorem rDescLe_total : ∀ x y : Option Int, rDescLe x y = true ∨ rDescLe y x = true
  | none, none => Or.inl rfl
  | none, some _ => Or.inr rfl
  | some _, none => Or.inl rfl
  | some a, some b => by
    rcases Int.le_total a b with h | h
    · exact Or.inr (by simp [rDescLe, h])
    · exact Or.inl (by simp [rDescLe, h])

/-- `rDescLe` is transitive. -/
theorem rDescLe_trans : ∀ x y z : Option Int,
    rDescLe x y = true → rDescLe y z = true → rDescLe x z = true
  | none, none, none, _, _ => rfl
  | none, none, some _, _, h2 => h2
  | none, some _, _, h1, _ => by simp [rDescLe] at h1
  | some _, none, none, _, _ => rfl
  | some _, none, some _, _, h2 => by simp [rDescLe] at h2
  | some _, some _, none, _, _ => rfl
  | some a, some b, some c, h1, h2 => by
    simp only [rDescLe, decide_eq_true_eq] at h1 h2 ⊢
    omega

/-- The report sort key is total. -/
theorem keyLe_total (a b : CorrRow) : keyLe a b = true ∨ keyLe b a = true := by
  unfold keyLe
  rcases hf : a.feature == b.feature with _ | _
  · have hfne : a.feature ≠ b.feature := by rwa [beq_eq_false_iff_ne] at hf
    have hf' : (b.feature == a.feature) = false := by
      rw [beq_eq_false_iff_ne]; exact Ne.symm hfne
    rw [if_neg (show ¬(false = true) by simp),
        if_neg (show ¬((b.feature == a.feature) = true) by simp [hf'])]
    exact strLtB_or_of_ne hfne
  · have hfeq : a.feature = b.feature := by rwa [beq_iff_eq] at hf
    rw [if_pos rfl, if_pos (show (b.feature == a.feature) = true by simp [hfeq])]
    rcases hm : a.metric == b.metric with _ | _
    · have hmne : a.metric ≠ b.metric := by rwa [beq_eq_false_iff_ne] at hm
      have hm' : (b.metric == a.metric) = false := by
        rw [beq_eq_false_iff_ne]; exact Ne.symm hmne
      rw [if_neg (show ¬(false = true) by simp),
          if_neg (show ¬((b.metric == a.metric) = true) by simp [hm'])]
      exact strLtB_or_of_ne hmne
    · have hmeq : a.metric = b.metric := by rwa [beq_iff_eq] at hm
      rw [if_pos rfl, if_pos (show (b.metric == a.metric) = true by simp [hmeq])]
      exact rDescLe_total a.r b.r

/-- The report sort key is transitive. -/
theorem keyLe_trans (a b c : CorrRow)
    (h1 : keyLe a b = true) (h2 : keyLe b c = true) : keyLe a c = true := by
  unfold keyLe at h1 h2 ⊢
  rcases hab : a.feature == b.feature with _ | _ <;> rw [hab] at h1 <;>
    rcases hbc : b.feature == c.feature with _ | _ <;> rw [hbc] at h2
  · simp only [Bool.false_eq_true, if_false] at h1 h2
    have hlt := strLtB_trans h1 h2
    rw [if_neg (show ¬((a.feature == c.feature) = true) by
      rw [Bool.not_eq_true, beq_eq_false_iff_ne]; exact ne_of_strLtB hlt)]
    exact hlt
  · have hbceq : b.feature = c.feature := by rwa [beq_iff_eq] at hbc
    simp only [Bool.false_eq_true, if_false] at h1
    have hlt : strLtB a.feature c.feature = true := hbceq ▸ h1
    rw [if_neg (show ¬((a.feature == c.feature) = true) by
      rw [Bool.not_eq_true, beq_eq_false_iff_ne]; exact ne_of_strLtB hlt)]
    exact hlt
  · have habeq : a.feature = b.feature := by rwa [beq_iff_eq] at hab
    simp only [Bool.false_eq_true, if_false] at h2
    have hlt : strLtB a.feature c.feature = true := habeq ▸ h2
    rw [if_neg (show ¬((a.feature == c.feature) = true) by
      rw [Bool.not_eq_true, beq_eq_false_iff_ne]; exact ne_of_strLtB hlt)]
    exact hlt
  · have habeq : a.feature = b.feature := by rwa [beq_iff_eq] at hab
    have hbceq : b.feature = c.feature := by rwa [beq_iff_eq] at hbc
    rw [if_pos rfl] at h1 h2
    rw [if_pos (show (a.feature == c.feature) = true by simp [habeq, hbceq])]
    rcases mab : a.metric == b.metric with _ | _ <;> rw [mab] at h1 <;>
      rcases mbc : b.metric == c.metric with _ | _ <;> rw [mbc] at h2
    · simp only [Bool.false_eq_true, if_false] at h1 h2
      have hlt := strLtB_trans h1 h2
      rw [if_neg (show ¬((a.metric == c.metric) = true) by
        rw [Bool.not_eq_true, beq_eq_false_iff_ne]; exact ne_of_strLtB hlt)]
      exact hlt
    · have hmbc : b.metric = c.metric := by rwa [beq_iff_eq] at mbc
      simp only [Bool.false_eq_true, if_false] at h1
      have hlt : strLtB a.metric c.metric = true := hmbc ▸ h1
      rw [if_neg (show ¬((a.metric == c.metric) = true) by
        rw [Bool.not_eq_true, beq_eq_false_iff_ne]; exact ne_of_strLtB hlt)]
      exact hlt
    · have hmab : a.metric = b.metric := by rwa [beq_iff_eq] at mab
      simp only [Bool.false_eq_true, if_false] at h2
      have hlt : strLtB a.metric c.metric = true := hmab ▸ h2
      rw [if_neg (show ¬((a.metric == c.metric) = true) by
        rw [Bool.not_eq_true, beq_eq_false_iff_ne]; exact ne_of_strLtB hlt)]
      exact hlt
    · have hmab : a.metric = b.metric := by rwa [beq_iff_eq] at mab
      have hmbc : b.metric = c.metric := by rwa [beq_iff_eq] at mbc
      rw [if_pos rfl] at h1 h2
      rw [if_pos (show (a.metric == c.metric) = true by simp [hmab, hmbc])]
      exact rDescLe_trans a.r b.r c.r h1 h2

/-- The report sort produces a key-sorted list. -/
theorem sortValues_sorted (rows : List CorrRow) :
    (sortValues rows).Pairwise (fun a b => keyLe a b = true) := by
  haveI : IsTotal CorrRow (fun a b => keyLe a b = true) := ⟨keyLe_total⟩
  haveI : IsTrans CorrRow (fun a b => keyLe a b = true) := ⟨keyLe_trans⟩
  exact List.sorted_insertionSort _ rows

/-! ## Structural lemmas about the correlation engine -/

/-- Membership in a conditional singleton determines the element. -/
theorem mem_ite_singleton {α : Type} {c : Prop} [Decidable c] {x row : α}
    (h : row ∈ if c then [x] else []) : row = x := by
  split at h
  · exact List.mem_singleton.mp h
  · cases h

/-- Every row the per-feature loop body emits carries its feature
name. -/
theorem featRows_feature (pf sf : StatFn) (df : DFrame) (mets : List String)
    (f : String) : ∀ row ∈ (featRows pf sf df mets f).1, row.feature = f := by
  intro row h
  unfold featRows at h
  split at h
  · rcases List.mem_append.mp h with h | h
    · rw [mem_ite_singleton h]; rfl
    · rw [mem_ite_singleton h]; rfl
  · rcases List.mem_append.mp h with h | h
    · split at h
      · split at h
        · rw [List.mem_singleton.mp h]; rfl
        · cases h
      · cases h
    · split at h
      · split at h
        · rw [List.mem_singleton.mp h]; rfl
        · cases h
      · cases h

/-- On a constant feature, every emitted row has both values absent. -/
theorem featRows_constant_undefined (pf sf : StatFn) (df : DFrame)
    (mets : List String) (f : String)
    (hconst : uniqueCount (colVals df f) ≤ 1) :
    ∀ row ∈ (featRows pf sf df mets f).1, row.r = none ∧ row.p_value = none := by
  intro row h
  unfold featRows at h
  rw [if_pos hconst] at h
  rcases List.mem_append.mp h with h | h
  · rw [mem_ite_singleton h]; exact ⟨rfl, rfl⟩
  · rw [mem_ite_singleton h]; exact ⟨rfl, rfl⟩

/-- On a constant feature, the warning is logged and is the only log
entry. -/
theorem featRows_constant_logs (pf sf : StatFn) (df : DFrame)
    (mets : List String) (f : String)
    (hconst : uniqueCount (colVals df f) ≤ 1) :
    (featRows pf sf df mets f).2 = [LogMsg.constantFeature f] := by
  unfold featRows
  rw [if_pos hconst]

/-- No log entry the per-feature loop body emits names a method. -/
theorem featRows_logs_no_method (pf sf : StatFn) (df : DFrame)
    (mets : List String) (f : String) :
    ∀ msg ∈ (featRows pf sf df mets f).2, ∀ x, mentionsMethod msg x = false := by
  intro msg h x
  unfold featRows at h
  split at h
  · rw [List.mem_singleton.mp h]; rfl
  · rcases List.mem_append.mp h with h | h
    · split at h
      · split at h
        · cases h
        · rw [List.mem_singleton.mp h]; rfl
      · cases h
    · split at h
      · split at h
        · cases h
        · rw [List.mem_singleton.mp h]; rfl
      · cases h

/-- On a constant feature with a supported requested statistic kind,
exactly one undefined row per kind is emitted. -/
theorem featRows_constant_count (pf sf : StatFn) (df : DFrame)
    (mets : List String) (f m : String)
    (hconst : uniqueCount (colVals df f) ≤ 1)
    (hm : m ∈ mets) (hsup : m = "pearson" ∨ m = "spearman") :
    (featRows pf sf df mets f).1.count (nanRow f m) = 1 := by
  unfold featRows
  rw [if_pos hconst]
  rw [List.count_append]
  rcases hsup with rfl | rfl
  · have h2 : List.count (nanRow f "pearson")
        (if mets.contains "spearman" = true then [nanRow f "spearman"] else []) = 0 := by
      split
      · rw [List.count_eq_zero]
        intro hmem
        have heq := List.mem_singleton.mp hmem
        exact absurd (congrArg CorrRow.metric heq) (by simp [nanRow])
      · rfl
    rw [h2, if_pos (List.elem_eq_true_of_mem hm)]
    simp
  · have h1 : List.count (nanRow f "spearman")
        (if mets.contains "pearson" = true then [nanRow f "pearson"] else []) = 0 := by
      split
      · rw [List.count_eq_zero]
        intro hmem
        have heq := List.mem_singleton.mp hmem
        exact absurd (congrArg CorrRow.metric heq) (by simp [nanRow])
      · rfl
    rw [h1, if_pos (List.elem_eq_true_of_mem hm)]
    simp

/-- On a non-constant feature, a successful statistic call contributes
its computed row. -/
theorem featRows_stat_mem (pf sf : StatFn) (df : DFrame) (mets : List String)
    (f : String) (rp : Int × Int)
    (hnc : ¬(uniqueCount (colVals df f) ≤ 1)) :
    (mets.contains "pearson" = true → pf (colVals df f) (yVals df) = .ok rp →
      statRow f "pearson" rp ∈ (featRows pf sf df mets f).1) ∧
    (mets.contains "spearman" = true → sf (colVals df f) (yVals df) = .ok rp →
      statRow f "spearman" rp ∈ (featRows pf sf df mets f).1) := by
  unfold featRows
  rw [if_neg hnc]
  constructor
  · intro hc hok
    apply List.mem_append_left
    rw [if_pos hc, hok]
    exact List.mem_singleton.mpr rfl
  · intro hc hok
    apply List.mem_append_right
    rw [if_pos hc, hok]
    exact List.mem_singleton.mpr rfl

/-- When every requested column is present, the feature loop succeeds
and returns the accumulated rows and warnings. -/
theorem corrLoop_ok (pf sf : StatFn) (df : DFrame) (mets : List String) :
    ∀ features : List String, (∀ f ∈ features, df.featCols.contains f = true) →
      corrLoop pf sf df mets features =
        .ok (corrRowsOf pf sf df mets features, corrLogsOf pf sf df mets features) := by
  intro features
  induction features with
  | nil => intro _; rfl
  | cons f fs ih =>
    intro hcols
    have hf := hcols f (by simp)
    have ihh := ih (fun g hg => hcols g (by simp [hg]))
    simp only [corrLoop, computeForFeat]
    rw [if_pos hf, ihh]
    simp [corrRowsOf, corrLogsOf]

/-- `compute_correlations` on a frame with all columns present and a
nonempty accumulated row list: the rows, sorted, with the warnings. -/
theorem compute_correlations_eq (pf sf : StatFn) (df : DFrame)
    (mets features : List String)
    (hcols : ∀ f ∈ features, df.featCols.contains f = true)
    (hne : corrRowsOf pf sf df mets features ≠ []) :
    compute_correlations pf sf df mets features =
      .ok (sortValues (corrRowsOf pf sf df mets features),
           corrLogsOf pf sf df mets features) := by
  unfold compute_correlations
  rw [corrLoop_ok pf sf df mets features hcols]
  simp [List.isEmpty_iff, hne]

/-- An unrecognized method name yields no rows and no log entries. -/
theorem corrMethod_unknown (pf sf : StatFn) (df : DFrame)
    (mets feats : List String) (name : String)
    (h : methodSubset df name = none) :
    corrMethod pf sf df mets feats name = ([], []) := by
  simp [corrMethod, h]

/-- A recognized subset with at most two rows is skipped with a logged
warning and contributes no rows. -/
theorem corrMethod_small (pf sf : StatFn) (df : DFrame)
    (mets feats : List String) (name : String) (mdf : DFrame)
    (hsub : methodSubset df name = some mdf) (hle : mdf.rows.length ≤ 2) :
    corrMethod pf sf df mets feats name =
      ([], [LogMsg.tooFewRows name mdf.rows.length]) := by
  simp [corrMethod, hsub, hle]

/-- A recognized subset with more than two rows, all requested columns
present and a nonempty accumulated row list is computed: its rows are
the sorted accumulated rows tagged with the method name. -/
theorem corrMethod_computed (pf sf : StatFn) (df : DFrame)
    (mets feats : List String) (name : String) (mdf : DFrame)
    (hsub : methodSubset df name = some mdf) (h2 : ¬(mdf.rows.length ≤ 2))
    (hcols : ∀ f ∈ feats, mdf.featCols.contains f = true)
    (hne : corrRowsOf pf sf mdf mets feats ≠ []) :
    corrMethod pf sf df mets feats name =
      ((sortValues (corrRowsOf pf sf mdf mets feats)).map
          (fun r => { r with method := name }),
       LogMsg.computing name mdf.rows.length :: corrLogsOf pf sf mdf mets feats) := by
  have hmiss : feats.filter (fun f => !(mdf.featCols.contains f)) = [] :=
    List.filter_eq_nil_iff.mpr (fun f hf => by rw [hcols f hf]; simp)
  simp only [corrMethod, hsub]
  rw [if_neg h2, hmiss]
  rw [compute_correlations_eq pf sf mdf mets feats hcols hne]
  simp

/-- Every row a method block emits is tagged with that method's name. -/
theorem corrMethod_rows_method (pf sf : StatFn) (df : DFrame)
    (mets feats : List String) (name : String) :
    ∀ row ∈ (corrMethod pf sf df mets feats name).1, row.method = name := by
  intro row hrow
  unfold corrMethod at hrow
  rcases hsub : methodSubset df name with _ | mdf <;> simp only [hsub] at hrow
  · cases hrow
  · split at hrow
    · cases hrow
    · split at hrow
      · cases hrow
      · rcases hc : compute_correlations pf sf mdf mets feats with e | rl <;>
          simp only [hc] at hrow
        · cases hrow
        · obtain ⟨r, -, rfl⟩ := List.mem_map.mp hrow
          rfl

/-- Every log entry an `ok` run of the feature loop produces comes from
some feature's loop body. -/
theorem corrLoop_log_src (pf sf : StatFn) (df : DFrame) (mets : List String) :
    ∀ (fs : List String) (rl : List CorrRow × List LogMsg),
      corrLoop pf sf df mets fs = .ok rl →
      ∀ msg ∈ rl.2, ∃ g, msg ∈ (featRows pf sf df mets g).2 := by
  intro fs
  induction fs with
  | nil =>
    intro rl h msg hm
    cases h
    cases hm
  | cons f fs ih =>
    intro rl h msg hm
    simp only [corrLoop] at h
    rcases hcf : computeForFeat pf sf df mets f with e | rl1 <;> simp only [hcf] at h
    · cases h
    · rcases hrest : corrLoop pf sf df mets fs with e | rl2 <;> simp only [hrest] at h
      · cases h
      · cases h
        rcases List.mem_append.mp hm with hm | hm
        · unfold computeForFeat at hcf
          split at hcf
          · cases hcf
            exact ⟨f, hm⟩
          · cases hcf
        · exact ih rl2 hrest msg hm

/-- Each log entry of a method block can only name the block's own
method. -/
theorem corrMethod_log_mention (pf sf : StatFn) (df : DFrame)
    (mets feats : List String) (name : String) :
    ∀ msg ∈ (corrMethod pf sf df mets feats name).2, ∀ x,
      mentionsMethod msg x = true → x = name := by
  intro msg hmsg x hx
  unfold corrMethod at hmsg
  rcases hsub : methodSubset df name with _ | mdf <;> simp only [hsub] at hmsg
  · cases hmsg
  · split at hmsg
    · rw [List.mem_singleton.mp hmsg] at hx
      simp only [mentionsMethod, beq_iff_eq] at hx
      exact hx.symm
    · split at hmsg
      · rw [List.mem_singleton.mp hmsg] at hx
        simp only [mentionsMethod, beq_iff_eq] at hx
        exact hx.symm
      · rcases hc : compute_correlations pf sf mdf mets feats with e | rl <;>
          simp only [hc] at hmsg
        · rcases List.mem_cons.mp hmsg with rfl | hmsg
          · simp only [mentionsMethod, beq_iff_eq] at hx
            exact hx.symm
          · rw [List.mem_singleton.mp hmsg] at hx
            simp only [mentionsMethod, beq_iff_eq] at hx
            exact hx.symm
        · rcases List.mem_cons.mp hmsg with rfl | hmsg
          · simp only [mentionsMethod, beq_iff_eq] at hx
            exact hx.symm
          · exfalso
            unfold compute_correlations at hc
            rcases hloop : corrLoop pf sf mdf mets feats with e' | rl' <;>
              simp only [hloop] at hc
            · cases hc
            · split at hc
              · cases hc
              · cases hc
                obtain ⟨g, hg⟩ := corrLoop_log_src pf sf mdf mets feats rl' hloop msg hmsg
                rw [featRows_logs_no_method pf sf mdf mets g msg hg x] at hx
                cases hx

/-- The row output of `correlation` is exactly the concatenated method
blocks (the empty-report branch only adds a log entry). -/
theorem correlation_rows_eq (pf sf : StatFn) (df : DFrame)
    (methods mets feats : List String) :
    (correlation pf sf df methods mets feats).1 =
      (corrAll pf sf df mets feats methods).1 := by
  simp only [correlation]
  split <;> rfl

/-- Every method-loop log entry also appears in the final report's
log. -/
theorem correlation_logs_of_corrAll (pf sf : StatFn) (df : DFrame)
    (methods mets feats : List String) :
    ∀ msg ∈ (corrAll pf sf df mets feats methods).2,
      msg ∈ (correlation pf sf df methods mets feats).2 := by
  intro msg h
  simp only [correlation]
  split
  · exact List.mem_append_left _ h
  · exact h

/-- A final log entry is a method-loop entry or the no-results notice. -/
theorem correlation_logs_cases (pf sf : StatFn) (df : DFrame)
    (methods mets feats : List String) :
    ∀ msg ∈ (correlation pf sf df methods mets feats).2,
      msg ∈ (corrAll pf sf df mets feats methods).2 ∨ msg = LogMsg.noResults := by
  intro msg h
  simp only [correlation] at h
  split at h
  · rcases List.mem_append.mp h with h | h
    · exact Or.inl h
    · exact Or.inr (List.mem_singleton.mp h)
  · exact Or.inl h

/-- The engine recognizes exactly the three built-in subset names. -/
theorem methodSubset_isSome_iff (df : DFrame) (name : String) :
    (methodSubset df name).isSome = true ↔
      (name = "all" ∨ name = "rank1" ∨ name = "best_dockq") := by
  unfold methodSubset
  by_cases h1 : name = "all"
  · simp [h1]
  · by_cases h2 : name = "rank1"
    · simp [h1, h2]
    · by_cases h3 : name = "best_dockq"
      · simp [h1, h2, h3]
      · simp [h1, h2, h3]

/-- Every emitted row's method is a configured, recognized name. -/
theorem corrAll_row_method (pf sf : StatFn) (df : DFrame)
    (mets feats : List String) :
    ∀ ms : List String, ∀ row ∈ (corrAll pf sf df mets feats ms).1,
      row.method ∈ ms ∧ (methodSubset df row.method).isSome = true := by
  intro ms
  induction ms with
  | nil => intro row h; cases h
  | cons m ms ih =>
    intro row h
    simp only [corrAll] at h
    rcases List.mem_append.mp h with h | h
    · have hm := corrMethod_rows_method pf sf df mets feats m row h
      refine ⟨by rw [hm]; exact List.mem_cons_self m ms, ?_⟩
      rw [hm]
      rcases hsub : methodSubset df m with _ | mdf
      · rw [corrMethod_unknown pf sf df mets feats m hsub] at h
        cases h
      · rfl
    · obtain ⟨hmem, hsome⟩ := ih row h
      exact ⟨List.mem_cons_of_mem m hmem, hsome⟩

/-- Every method a log entry names is a configured, recognized name. -/
theorem corrAll_log_mention (pf sf : StatFn) (df : DFrame)
    (mets feats : List String) :
    ∀ ms : List String, ∀ msg ∈ (corrAll pf sf df mets feats ms).2, ∀ x,
      mentionsMethod msg x = true →
      x ∈ ms ∧ (methodSubset df x).isSome = true := by
  intro ms
  induction ms with
  | nil => intro msg h; cases h
  | cons m ms ih =>
    intro msg h x hx
    simp only [corrAll] at h
    rcases List.mem_append.mp h with h | h
    · have hxm := corrMethod_log_mention pf sf df mets feats m msg h x hx
      refine ⟨by rw [hxm]; exact List.mem_cons_self m ms, ?_⟩
      rw [hxm]
      rcases hsub : methodSubset df m with _ | mdf
      · rw [corrMethod_unknown pf sf df mets feats m hsub] at h
        cases h
      · rfl
    · obtain ⟨hmem, hsome⟩ := ih msg h x hx
      exact ⟨List.mem_cons_of_mem m hmem, hsome⟩

/-- When a method's block is empty, no emitted row carries that
method's name. -/
theorem corrAll_no_method_rows (pf sf : StatFn) (df : DFrame)
    (mets feats : List String) (name : String)
    (hblock : (corrMethod pf sf df mets feats name).1 = []) :
    ∀ ms, ∀ row ∈ (corrAll pf sf df mets feats ms).1, row.method ≠ name := by
  intro ms
  induction ms with
  | nil => intro row h; cases h
  | cons m ms ih =>
    intro row h
    simp only [corrAll] at h
    rcases List.mem_append.mp h with h | h
    · by_cases hm : m = name
      · subst hm
        rw [hblock] at h
        cases h
      · rw [corrMethod_rows_method pf sf df mets feats m row h]
        exact hm
    · exact ih row h

/-- A configured method's block rows appear in the loop output. -/
theorem corrAll_block_mem (pf sf : StatFn) (df : DFrame)
    (mets feats : List String) (name : String) :
    ∀ ms, name ∈ ms → ∀ row ∈ (corrMethod pf sf df mets feats name).1,
      row ∈ (corrAll pf sf df mets feats ms).1 := by
  intro ms
  induction ms with
  | nil => intro h; cases h
  | cons m ms ih =>
    intro hmem row hrow
    simp only [corrAll]
    rcases List.mem_cons.mp hmem with rfl | hmem'
    · exact List.mem_append_left _ hrow
    · exact List.mem_append_right _ (ih hmem' row hrow)

/-- A configured method's block log entries appear in the loop log. -/
theorem corrAll_block_log_mem (pf sf : StatFn) (df : DFrame)
    (mets feats : List String) (name : String) :
    ∀ ms, name ∈ ms → ∀ msg ∈ (corrMethod pf sf df mets feats name).2,
      msg ∈ (corrAll pf sf df mets feats ms).2 := by
  intro ms
  induction ms with
  | nil => intro h; cases h
  | cons m ms ih =>
    intro hmem msg hmsg
    simp only [corrAll]
    rcases List.mem_cons.mp hmem with rfl | hmem'
    · exact List.mem_append_left _ hmsg
    · exact List.mem_append_right _ (ih hmem' msg hmsg)

/-- A method name is at position 0 of a list it heads. -/
theorem methodPos_cons_self (m : String) (ms : List String) :
    methodPos (m :: ms) m = 0 := by
  simp [methodPos]

/-- A different head shifts a method's position by one. -/
theorem methodPos_cons_of_ne {x m : String} (ms : List String) (h : x ≠ m) :
    methodPos (m :: ms) x = methodPos ms x + 1 := by
  show (if (m == x) = true then 0 else methodPos ms x + 1) = methodPos ms x + 1
  rw [if_neg (show ¬((m == x) = true) by simp only [beq_iff_eq]; exact Ne.symm h)]

/-- Each method block is internally sorted by the report key. -/
theorem corrMethod_block_sorted (pf sf : StatFn) (df : DFrame)
    (mets feats : List String) (name : String) :
    (corrMethod pf sf df mets feats name).1.Pairwise
      (fun a b => keyLe a b = true) := by
  unfold corrMethod
  rcases hsub : methodSubset df name with _ | mdf <;> simp only [hsub]
  · exact List.Pairwise.nil
  · split
    · exact List.Pairwise.nil
    · split
      · exact List.Pairwise.nil
      · rcases hc : compute_correlations pf sf mdf mets feats with e | rl <;>
          simp only [hc]
        · exact List.Pairwise.nil
        · unfold compute_correlations at hc
          rcases hloop : corrLoop pf sf mdf mets feats with e' | rl' <;>
            simp only [hloop] at hc
          · cases hc
          · split at hc
            · cases hc
            · cases hc
              exact List.pairwise_map.mpr (sortValues_sorted rl'.1)

/-- Pairwise report order for the whole method loop, given distinct
configured names. -/
theorem corrAll_pairwise (pf sf : StatFn) (df : DFrame)
    (mets feats : List String) :
    ∀ ms : List String, ms.Nodup →
      (corrAll pf sf df mets feats ms).1.Pairwise (reportLe ms) := by
  intro ms
  induction ms with
  | nil => intro _; exact List.Pairwise.nil
  | cons m ms ih =>
    intro hnd
    rw [List.nodup_cons] at hnd
    simp only [corrAll]
    rw [List.pairwise_append]
    refine ⟨?_, ?_, ?_⟩
    · have hmeth := corrMethod_rows_method pf sf df mets feats m
      refine (corrMethod_block_sorted pf sf df mets feats m).imp_of_mem ?_
      intro a b ha hb hk
      right
      exact ⟨(hmeth a ha).trans (hmeth b hb).symm, hk⟩
    · have hmeths := corrAll_row_method pf sf df mets feats ms
      refine (ih hnd.2).imp_of_mem ?_
      intro a b ha hb hr
      have hma : a.method ≠ m := fun he => hnd.1 (he ▸ (hmeths a ha).1)
      have hmb : b.method ≠ m := fun he => hnd.1 (he ▸ (hmeths b hb).1)
      rcases hr with hlt | ⟨heq, hk⟩
      · left
        rw [methodPos_cons_of_ne ms hma, methodPos_cons_of_ne ms hmb]
        omega
      · right
        exact ⟨heq, hk⟩
    · intro a ha b hb
      left
      have hma := corrMethod_rows_method pf sf df mets feats m a ha
      have hmb : b.method ≠ m := fun he =>
        hnd.1 (he ▸ (corrAll_row_method pf sf df mets feats ms b hb).1)
      rw [hma, methodPos_cons_self, methodPos_cons_of_ne ms hmb]
      omega

/-! ## C9 -/

/-- C9: the correlation report's rows are ordered deterministically:
grouped by method subset in the configured order (`methodPos`), and
within a subset sorted by feature ascending, then statistic kind
ascending, then coefficient descending (`keyLe`, with absent
coefficients last as pandas places NaN). -/
theorem c9_report_rows_ordered (pf sf : StatFn) (df : DFrame)
    (methods mets features : List String) (hnd : methods.Nodup) :
    (correlation pf sf df methods mets features).1.Pairwise
      (reportLe methods) := by
  rw [correlation_rows_eq]
  exact corrAll_pairwise pf sf df mets features methods hnd

/-- Witness for C9 at a concrete run with two configured subsets. -/
theorem c9_witness :
    (correlation pfOk sfOk dfW ["all", "rank1"] ["pearson", "spearman"]
      ["ptm"]).1.Pairwise (reportLe ["all", "rank1"]) :=
  c9_report_rows_ordered pfOk sfOk dfW ["all", "rank1"]
    ["pearson", "spearman"] ["ptm"] (by decide)

/-! ## C10 -/

/-- C10: the engine recognizes exactly the method-subset names `all`,
`rank1` and `best_dockq`; any other configured name is skipped silently
(it yields no output rows, no error, and no log entry naming it).  In
particular the combined CLI's default method list
(`metricsDefaultMethods`, from metrics.py line 55) names the top-rank
subset `rank001`, which the engine does not recognize, so a default
combined-CLI correlation run never emits a top-rank (`rank001` or
`rank1`) correlation row. -/
theorem c10_unknown_methods_skipped_silently :
    ∀ (pf sf : StatFn) (df : DFrame) (methods mets feats : List String),
      (∀ row ∈ (correlation pf sf df methods mets feats).1,
        row.method ∈ methods ∧
        (row.method = "all" ∨ row.method = "rank1" ∨ row.method = "best_dockq")) ∧
      (∀ msg ∈ (correlation pf sf df methods mets feats).2, ∀ name,
        mentionsMethod msg name = true →
        name ∈ methods ∧ (name = "all" ∨ name = "rank1" ∨ name = "best_dockq")) ∧
      (∀ row ∈ (correlation pf sf df metricsDefaultMethods mets feats).1,
        row.method ≠ "rank001" ∧ row.method ≠ "rank1") := by
  intro pf sf df methods mets feats
  refine ⟨?_, ?_, ?_⟩
  · intro row h
    rw [correlation_rows_eq] at h
    obtain ⟨hmem, hsome⟩ := corrAll_row_method pf sf df mets feats methods row h
    exact ⟨hmem, (methodSubset_isSome_iff df row.method).mp hsome⟩
  · intro msg h name hx
    rcases correlation_logs_cases pf sf df methods mets feats msg h with h' | rfl
    · obtain ⟨hmem, hsome⟩ := corrAll_log_mention pf sf df mets feats methods msg h' name hx
      exact ⟨hmem, (methodSubset_isSome_iff df name).mp hsome⟩
    · cases hx
  · intro row h
    rw [correlation_rows_eq] at h
    obtain ⟨hmem, hsome⟩ := corrAll_row_method pf sf df mets feats metricsDefaultMethods row h
    have hrec := (methodSubset_isSome_iff df row.method).mp hsome
    have hd : metricsDefaultMethods = ["all", "rank001", "best_dockq"] := by decide
    rw [hd] at hmem
    constructor
    · intro he
      rw [he] at hrec
      rcases hrec with h' | h' | h' <;> exact absurd h' (by decide)
    · intro he
      rw [he] at hmem
      exact absurd hmem (by decide)

/-- Witness for C10: a run configured with `["all", "rank001"]` emits
the `"all"` Pearson row, whose method is configured and recognized. -/
theorem c10_witness :
    corrRow0.method ∈ (["all", "rank001"] : List String) ∧
    (corrRow0.method = "all" ∨ corrRow0.method = "rank1" ∨
      corrRow0.method = "best_dockq") :=
  (c10_unknown_methods_skipped_silently pfOk sfOk dfW ["all", "rank001"]
    ["pearson"] ["ptm"]).1 corrRow0 (by decide)

/-! ## C5 -/

/-- Counting the per-kind undefined row of a constant feature across the
whole (distinct) feature list: exactly one occurrence. -/
theorem count_nanRow_corrRowsOf (pf sf : StatFn) (df : DFrame)
    (mets : List String) (f m : String)
    (hconst : uniqueCount (colVals df f) ≤ 1)
    (hm : m ∈ mets) (hsupm : m = "pearson" ∨ m = "spearman") :
    ∀ features : List String, features.Nodup → f ∈ features →
      (corrRowsOf pf sf df mets features).count (nanRow f m) = 1 := by
  intro features
  induction features with
  | nil => intro _ hf; cases hf
  | cons g gs ih =>
    intro hnd hf
    simp only [corrRowsOf, List.map_cons, List.flatten_cons] at *
    rw [List.count_append]
    rw [List.nodup_cons] at hnd
    rcases List.mem_cons.mp hf with rfl | hf'
    · rw [featRows_constant_count pf sf df mets f m hconst hm hsupm]
      have hzero : ((gs.map (fun g => (featRows pf sf df mets g).1)).flatten).count
          (nanRow f m) = 0 := by
        rw [List.count_eq_zero]
        intro hmem
        obtain ⟨l, hl, hml⟩ := List.mem_flatten.mp hmem
        obtain ⟨g', hg', rfl⟩ := List.mem_map.mp hl
        have hfeat : f = g' := featRows_feature pf sf df mets g' _ hml
        exact hnd.1 (show f ∈ gs by rw [hfeat]; exact hg')
      rw [hzero]
    · have hfg : f ≠ g := fun he => hnd.1 (he ▸ hf')
      have hzero : ((featRows pf sf df mets g).1).count (nanRow f m) = 0 := by
        rw [List.count_eq_zero]
        intro hmem
        have hfeat : f = g := featRows_feature pf sf df mets g _ hmem
        exact hfg hfeat
      rw [hzero, ih hnd.2 hf']

/-- C5: a requested feature whose values are constant within the subset
makes the engine emit exactly one row per requested (supported)
statistic kind with both the coefficient and the p-value marked
undefined — never a numeric value and never an error — and log the
constant-feature warning. -/
theorem c5_constant_feature_undefined
    (pf sf : StatFn) (df : DFrame) (mets features : List String) (f : String)
    (hcols : ∀ g ∈ features, df.featCols.contains g = true)
    (hf : f ∈ features) (hnd : features.Nodup)
    (hsup : ∀ m ∈ mets, m = "pearson" ∨ m = "spearman") (hmne : mets ≠ [])
    (hconst : uniqueCount (colVals df f) ≤ 1) :
    ∃ out logs, compute_correlations pf sf df mets features = .ok (out, logs) ∧
      (∀ m ∈ mets, out.count (nanRow f m) = 1) ∧
      (∀ row ∈ out, row.feature = f → row.r = none ∧ row.p_value = none) ∧
      LogMsg.constantFeature f ∈ logs := by
  obtain ⟨m0, hm0⟩ := List.exists_mem_of_ne_nil mets hmne
  have hmemf : nanRow f m0 ∈ (featRows pf sf df mets f).1 := by
    have hc := featRows_constant_count pf sf df mets f m0 hconst hm0 (hsup m0 hm0)
    have : 0 < (featRows pf sf df mets f).1.count (nanRow f m0) := by rw [hc]; omega
    exact List.count_pos_iff.mp this
  have hneRows : corrRowsOf pf sf df mets features ≠ [] := by
    intro hempty
    have hmem : nanRow f m0 ∈ corrRowsOf pf sf df mets features :=
      List.mem_flatten.mpr ⟨_, List.mem_map_of_mem _ hf, hmemf⟩
    rw [hempty] at hmem
    cases hmem
  refine ⟨_, _, compute_correlations_eq pf sf df mets features hcols hneRows,
    ?_, ?_, ?_⟩
  · intro m hm
    have hperm := List.perm_insertionSort (fun a b => keyLe a b = true)
      (corrRowsOf pf sf df mets features)
    rw [sortValues, hperm.count_eq]
    exact count_nanRow_corrRowsOf pf sf df mets f m hconst hm (hsup m hm)
      features hnd hf
  · intro row hrow hfeat
    rw [sortValues, List.mem_insertionSort] at hrow
    obtain ⟨l, hl, hml⟩ := List.mem_flatten.mp hrow
    obtain ⟨g, hg, rfl⟩ := List.mem_map.mp hl
    have hgf : g = f := by rw [← featRows_feature pf sf df mets g row hml, hfeat]
    subst hgf
    exact featRows_constant_undefined pf sf df mets g hconst row hml
  · refine List.mem_flatten.mpr ⟨_, List.mem_map_of_mem _ hf, ?_⟩
    rw [featRows_constant_logs pf sf df mets f hconst]
    exact List.mem_singleton.mpr rfl

/-- Witness for C5 at a concrete frame whose `plddt` column is
constant. -/
theorem c5_witness :
    ∃ out logs, compute_correlations pfOk sfOk dfW ["pearson", "spearman"]
        ["ptm", "plddt"] = .ok (out, logs) ∧
      (∀ m ∈ (["pearson", "spearman"] : List String),
        out.count (nanRow "plddt" m) = 1) ∧
      (∀ row ∈ out, row.feature = "plddt" → row.r = none ∧ row.p_value = none) ∧
      LogMsg.constantFeature "plddt" ∈ logs :=
  c5_constant_feature_undefined pfOk sfOk dfW ["pearson", "spearman"]
    ["ptm", "plddt"] "plddt" (by decide) (by decide) (by decide) (by decide)
    (by decide) (by decide)

/-! ## C7 -/

/-- C7: subset-size policy of the method loop.  A recognized configured
subset with at most two rows contributes zero report rows and a logged
(not raised) skip notice; a subset with more than two rows, whose
requested feature columns are present and non-constant, contributes one
computed (rounded) coefficient row for each requested (feature,
statistic kind) pair on which the external statistic function
succeeds. -/
theorem c7_subset_size_policy
    (pf sf : StatFn) (df : DFrame) (methods mets features : List String)
    (name : String) (mdf : DFrame)
    (hsub : methodSubset df name = some mdf) (hmem : name ∈ methods) :
    (mdf.rows.length ≤ 2 →
      (∀ row ∈ (correlation pf sf df methods mets features).1,
        row.method ≠ name) ∧
      LogMsg.tooFewRows name mdf.rows.length ∈
        (correlation pf sf df methods mets features).2) ∧
    (¬(mdf.rows.length ≤ 2) →
      (∀ g ∈ features, mdf.featCols.contains g = true) →
      (∀ g ∈ features, ¬(uniqueCount (colVals mdf g) ≤ 1)) →
      ∀ f ∈ features, ∀ m ∈ mets,
        (m = "pearson" → ∀ rp, pf (colVals mdf f) (yVals mdf) = .ok rp →
          ∃ row, row ∈ (correlation pf sf df methods mets features).1 ∧
            row.method = name ∧ row.feature = f ∧ row.metric = "pearson" ∧
            row.r = some (pyRound3 rp.1)) ∧
        (m = "spearman" → ∀ rp, sf (colVals mdf f) (yVals mdf) = .ok rp →
          ∃ row, row ∈ (correlation pf sf df methods mets features).1 ∧
            row.method = name ∧ row.feature = f ∧ row.metric = "spearman" ∧
            row.r = some (pyRound3 rp.1))) := by
  constructor
  · intro hle
    have hblock := corrMethod_small pf sf df mets features name mdf hsub hle
    constructor
    · intro row h
      rw [correlation_rows_eq] at h
      exact corrAll_no_method_rows pf sf df mets features name
        (by rw [hblock]) methods row h
    · apply correlation_logs_of_corrAll
      apply corrAll_block_log_mem pf sf df mets features name methods hmem
      rw [hblock]
      exact List.mem_singleton.mpr rfl
  · intro h2 hcols hnc f hfmem m hmmem
    constructor
    · rintro rfl rp hok
      have hcont : mets.contains "pearson" = true := List.elem_eq_true_of_mem hmmem
      have hrowmem := (featRows_stat_mem pf sf mdf mets f rp (hnc f hfmem)).1 hcont hok
      have hneRows : corrRowsOf pf sf mdf mets features ≠ [] := by
        intro hempty
        have hmemr : statRow f "pearson" rp ∈ corrRowsOf pf sf mdf mets features :=
          List.mem_flatten.mpr ⟨_, List.mem_map_of_mem _ hfmem, hrowmem⟩
        rw [hempty] at hmemr
        cases hmemr
      have hblock := corrMethod_computed pf sf df mets features name mdf hsub h2
        hcols hneRows
      refine ⟨{ statRow f "pearson" rp with method := name }, ?_, rfl, rfl, rfl, rfl⟩
      rw [correlation_rows_eq]
      apply corrAll_block_mem pf sf df mets features name methods hmem
      rw [hblock]
      apply List.mem_map_of_mem
      rw [sortValues, List.mem_insertionSort]
      exact List.mem_flatten.mpr ⟨_, List.mem_map_of_mem _ hfmem, hrowmem⟩
    · rintro rfl rp hok
      have hcont : mets.contains "spearman" = true := List.elem_eq_true_of_mem hmmem
      have hrowmem := (featRows_stat_mem pf sf mdf mets f rp (hnc f hfmem)).2 hcont hok
      have hneRows : corrRowsOf pf sf mdf mets features ≠ [] := by
        intro hempty
        have hmemr : statRow f "spearman" rp ∈ corrRowsOf pf sf mdf mets features :=
          List.mem_flatten.mpr ⟨_, List.mem_map_of_mem _ hfmem, hrowmem⟩
        rw [hempty] at hmemr
        cases hmemr
      have hblock := corrMethod_computed pf sf df mets features name mdf hsub h2
        hcols hneRows
      refine ⟨{ statRow f "spearman" rp with method := name }, ?_, rfl, rfl, rfl, rfl⟩
      rw [correlation_rows_eq]
      apply corrAll_block_mem pf sf df mets features name methods hmem
      rw [hblock]
      apply List.mem_map_of_mem
      rw [sortValues, List.mem_insertionSort]
      exact List.mem_flatten.mpr ⟨_, List.mem_map_of_mem _ hfmem, hrowmem⟩

/-- Witness for C7: on `dfW`, the `rank1` subset has exactly 2 rows and
is skipped with a logged notice, while the 3-row `all` subset yields a
computed Pearson row for `ptm`. -/
theorem c7_witness :
    ((∀ row ∈ (correlation pfOk sfOk dfW ["rank1"] ["pearson"] ["ptm"]).1,
        row.method ≠ "rank1") ∧
      LogMsg.tooFewRows "rank1" 2 ∈
        (correlation pfOk sfOk dfW ["rank1"] ["pearson"] ["ptm"]).2) ∧
    (∃ row, row ∈ (correlation pfOk sfOk dfW ["all"] ["pearson"] ["ptm"]).1 ∧
      row.method = "all" ∧ row.feature = "ptm" ∧ row.metric = "pearson" ∧
      row.r = some (pyRound3 500000)) := by
  constructor
  · exact (c7_subset_size_policy pfOk sfOk dfW ["rank1"] ["pearson"] ["ptm"]
      "rank1" ⟨["ptm", "plddt"],
        [⟨"T1", 1, 800000, [("ptm", 900000), ("plddt", 700000)]⟩,
         ⟨"T2", 1, 300000, [("ptm", 500000), ("plddt", 700000)]⟩]⟩
      (by decide) (by decide)).1 (by decide)
  · exact ((c7_subset_size_policy pfOk sfOk dfW ["all"] ["pearson"] ["ptm"]
      "all" dfW (by decide) (by decide)).2 (by decide) (by decide) (by decide)
      "ptm" (by decide) "pearson" (by decide)).1 rfl (500000, 10000) rfl
